import Mathlib

/-!
Verification of the tower_climber learning core (state discretizer and
multi-context tabular Q-learning agent) against its specification.

The Python source is shallowly embedded: Python floats are modelled as
exact rationals (`ℚ`), Python ints as `ℤ`/`ℕ`, Python dicts as ordered
association lists with first-match lookup and in-place overwrite, and
Python exceptions as `Except` values carrying the mutated state at the
point of the raise.
-/

namespace TowerClimber

/-! ## Configuration constants (src/config.py) -/

def BASE_ALPHA : ℚ := 1/10

def GAMMA : ℚ := 19/20

def EPSILON_START : ℚ := 1

def EPSILON_MIN : ℚ := 1/20

def EPSILON_DECAY : ℚ := 199/200

/-- COMBAT_ACTIONS = [ATTACK_HIGH, ATTACK_MID, ATTACK_LOW, RUN, CHARGE, DODGE, PARRY, JUMP] -/
def COMBAT_ACTIONS : List ℤ := [0, 1, 2, 3, 4, 5, 6, 7]

/-- BASE_ACTIONS = the five training actions and START_CLIMB -/
def BASE_ACTIONS : List ℤ := [0, 1, 2, 3, 4, 5]

def MINIGAME_ACTIONS : List ℤ := [0, 1]

/-- HP_THRESHOLDS dict from src/config.py; keys other than the four
present in the dict are never looked up by the source. -/
def HP_THRESHOLDS (k : String) : ℚ :=
  if k = "critical" then 1/4
  else if k = "low" then 1/2
  else if k = "medium" then 3/4
  else if k = "high" then 1
  else 0

def ATTACK_RANGE : ℚ := 50

/-! ## Python dict model

A Python dict is an insertion-ordered map with unique keys.  We model it
as an association list; `dictGet` is `d.get(k, default)` and `dictSet`
is `d[k] = v` (overwrite in place if the key is present, else append). -/

def dictGet {κ α : Type} [DecidableEq κ] (t : List (κ × α)) (k : κ) (d : α) : α :=
  match t.find? (fun p => p.1 = k) with
  | some p => p.2
  | none => d

def dictSet {κ α : Type} [DecidableEq κ] : List (κ × α) → κ → α → List (κ × α)
  | [], k, v => [(k, v)]
  | p :: t, k, v => if p.1 = k then (k, v) :: t else p :: dictSet t k v

/-- An Observation: a Python tuple of ints used as a Q-table key. -/
abbrev Obs := List ℤ

abbrev QKey := Obs × ℤ

abbrev QTable := List (QKey × ℚ)

/-! ## QLearningAgent state (src/ai/q_learning.py) -/

structure QLearningAgent where
  combat_q : QTable
  base_q : QTable
  minigame_q : QTable
  base_alpha : ℚ
  alpha : ℚ
  gamma : ℚ
  epsilon : ℚ
  last_state : Option Obs
  last_action : Option ℤ
  last_reward : ℚ
  cumulative_reward : ℚ
  last_context : Option String
  total_battles : ℕ
  battles_won : ℕ
  floors_cleared : ℕ
  highest_floor : ℕ
  total_learning_updates : ℕ
  lessons_learned : List String
  player_taught_actions : ℕ

/-- `QLearningAgent.__init__` with the default hyperparameters. -/
def initAgent : QLearningAgent :=
  { combat_q := []
    base_q := []
    minigame_q := []
    base_alpha := BASE_ALPHA
    alpha := BASE_ALPHA
    gamma := GAMMA
    epsilon := EPSILON_START
    last_state := none
    last_action := none
    last_reward := 0
    cumulative_reward := 0
    last_context := none
    total_battles := 0
    battles_won := 0
    floors_cleared := 0
    highest_floor := 0
    total_learning_updates := 0
    lessons_learned := []
    player_taught_actions := 0 }

/-- `_get_q_table`: reading the table selected by a context string. -/
def getQTable (ag : QLearningAgent) (context : String) : QTable :=
  if context = "combat" then ag.combat_q
  else if context = "base" then ag.base_q
  else if context = "minigame" then ag.minigame_q
  else ag.combat_q

/-- Writing back through the alias returned by `_get_q_table` (Python
mutates the selected table in place). -/
def setQTable (ag : QLearningAgent) (context : String) (t : QTable) : QLearningAgent :=
  if context = "combat" then { ag with combat_q := t }
  else if context = "base" then { ag with base_q := t }
  else if context = "minigame" then { ag with minigame_q := t }
  else { ag with combat_q := t }

/-- `_get_actions` -/
def getActions (context : String) : List ℤ :=
  if context = "combat" then COMBAT_ACTIONS
  else if context = "base" then BASE_ACTIONS
  else if context = "minigame" then MINIGAME_ACTIONS
  else COMBAT_ACTIONS

/-- `get_q`: `q_table.get((state, action), 0.0)` -/
def get_q (ag : QLearningAgent) (state : Obs) (action : ℤ) (context : String) : ℚ :=
  dictGet (getQTable ag context) (state, action) 0

/-- `set_q`: `q_table[(state, action)] = value` -/
def set_q (ag : QLearningAgent) (state : Obs) (action : ℤ) (value : ℚ)
    (context : String) : QLearningAgent :=
  setQTable ag context (dictSet (getQTable ag context) (state, action) value)

/-- Python's `max` over a non-empty list (the source never applies it to
an empty one: every action list is non-empty). -/
def listMax : List ℚ → ℚ
  | [] => 0
  | x :: xs => xs.foldl max x

/-! ## choose_action

`random.random() < epsilon` decides the exploration branch; `random.choice`
draws an element uniformly.  The two random draws are modelled by the
parameters `r` (the value of `random.random()`) and `i` (a uniformly
distributed index; `random.choice l` returns `l[i % len l]`). -/

/-- `best_actions = [a for a, q in zip(actions, q_values) if q == max_q]` -/
def bestActions (ag : QLearningAgent) (state : Obs) (context : String) : List ℤ :=
  let actions := getActions context
  let q_values := actions.map (fun a => get_q ag state a context)
  let max_q := listMax q_values
  ((actions.zip q_values).filter (fun p => p.2 = max_q)).map Prod.fst

def choose_action (ag : QLearningAgent) (r : ℚ) (i : ℕ) (state : Obs)
    (context : String) : ℤ × QLearningAgent :=
  let actions := getActions context
  let action :=
    if r < ag.epsilon then actions.getD (i % actions.length) 0
    else
      let best := bestActions ag state context
      best.getD (i % best.length) 0
  (action, { ag with last_state := some state, last_action := some action,
                     last_context := some context })

/-! ## learn and the lesson heuristic -/

/-- `get_action_name` (static) -/
def get_action_name (action : ℤ) (context : String) : String :=
  if context = "combat" then
    if action = 1 then "ATTACK"
    else if action = 3 then "RUN"
    else if action = 4 then "CHARGE"
    else "UNKNOWN"
  else if context = "base" then
    if action = 0 then "TRAIN STRENGTH"
    else if action = 1 then "TRAIN INTELLIGENCE"
    else if action = 2 then "TRAIN AGILITY"
    else if action = 3 then "TRAIN DEFENSE"
    else if action = 4 then "TRAIN LUCK"
    else if action = 5 then "START CLIMB"
    else "UNKNOWN"
  else if context = "minigame" then
    if action = 0 then "PRESS"
    else if action = 1 then "WAIT"
    else "UNKNOWN"
  else "UNKNOWN"

def hp_names : List String := ["High HP", "Medium HP", "Low HP", "Critical HP"]

/-- The lesson string `_maybe_add_lesson` derives, `none` when the method
returns without recording anything.  `state[0]` is modelled by `headI`
(states are non-empty tuples); Python's negative indexing into the
4-element `hp_names` is `% 4` (encoder states keep components in 0..3). -/
def lessonText (state : Obs) (action : ℤ) (q_value reward : ℚ) : Option String :=
  let action_name := get_action_name action "combat"
  let s0 := state.headI
  let hp_state := if s0 < 4 then hp_names.getD (s0 % 4).toNat "Unknown" else "Unknown"
  if reward > 20 then
    some ("Learned: " ++ action_name ++ " is great when " ++ hp_state ++ "!")
  else if reward < -20 then
    some ("Learned: " ++ action_name ++ " is bad when " ++ hp_state)
  else if q_value > 30 then
    some ("Mastered: " ++ action_name ++ " at " ++ hp_state)
  else none

/-- `_maybe_add_lesson` -/
def maybeAddLesson (ag : QLearningAgent) (state : Obs) (action : ℤ)
    (q_value reward : ℚ) : QLearningAgent :=
  match lessonText state action q_value reward with
  | none => ag
  | some lesson =>
    if lesson ∈ ag.lessons_learned then ag
    else
      let ls := ag.lessons_learned ++ [lesson]
      { ag with lessons_learned := if 20 < ls.length then ls.tail else ls }

/-- The TD target computed inside `learn`. -/
def learnTarget (ag : QLearningAgent) (reward : ℚ) (next_state : Obs)
    (context : String) (done : Bool) : ℚ :=
  if done then reward
  else reward + ag.gamma *
    listMax ((getActions context).map (fun a => get_q ag next_state a context))

/-- The value `learn` writes back. -/
def learnNewQ (ag : QLearningAgent) (state : Obs) (action : ℤ) (reward : ℚ)
    (next_state : Obs) (context : String) (done : Bool) : ℚ :=
  let current_q := get_q ag state action context
  current_q + ag.alpha * (learnTarget ag reward next_state context done - current_q)

/-- `learn` -/
def learn (ag : QLearningAgent) (state : Obs) (action : ℤ) (reward : ℚ)
    (next_state : Obs) (context : String) (done : Bool) : QLearningAgent :=
  let current_q := get_q ag state action context
  let new_q := learnNewQ ag state action reward next_state context done
  let ag1 := set_q ag state action new_q context
  let ag2 := { ag1 with last_reward := reward,
                        cumulative_reward := ag1.cumulative_reward + reward,
                        total_learning_updates := ag1.total_learning_updates + 1 }
  if context = "combat" ∧ 5 < |new_q - current_q| then
    maybeAddLesson ag2 state action new_q reward
  else ag2

/-- `decay_epsilon` -/
def decay_epsilon (ag : QLearningAgent) : QLearningAgent :=
  { ag with epsilon := max EPSILON_MIN (ag.epsilon * EPSILON_DECAY) }

/-! ## State encoder (src/ai/state.py)

`PhysicsBody.distance_to` returns `sqrt(dx*dx + dy*dy)`; square roots do
not exist in ℚ, so every comparison `distance_to(e) ⋈ c` with `c ≥ 0` is
modelled by the equivalent `dx² + dy² ⋈ c²` (squaring is strictly
monotone on non-negative reals, so the two comparisons agree exactly). -/

def HP_HIGH : ℤ := 0

def HP_MEDIUM : ℤ := 1

def HP_LOW : ℤ := 2

def HP_CRITICAL : ℤ := 3

def STAMINA_HIGH : ℤ := 0

def STAMINA_LOW : ℤ := 1

def ENEMY_MELEE : ℤ := 0

def ENEMY_RANGED : ℤ := 1

def ENEMY_NONE : ℤ := 2

def THREAT_LOW : ℤ := 0

def THREAT_MEDIUM : ℤ := 1

def THREAT_HIGH : ℤ := 2

def IN_RANGE_NO : ℤ := 0

def IN_RANGE_YES : ℤ := 1

def HEIGHT_ABOVE : ℤ := 0

def HEIGHT_SAME : ℤ := 1

def HEIGHT_BELOW : ℤ := 2

def NEAR_HAZARD_NO : ℤ := 0

def NEAR_HAZARD_YES : ℤ := 1

/-- The fields of an enemy entity the encoder reads. -/
structure Enemy where
  hp : ℚ
  x : ℚ
  y : ℚ
  enemy_type : String

/-- The fields of the agent entity the encoder reads. -/
structure AgentBody where
  hp : ℤ
  max_hp : ℤ
  stamina : ℚ
  x : ℚ
  y : ℚ

/-- Squared `distance_to` between the agent and an enemy. -/
def distSq (a : AgentBody) (e : Enemy) : ℚ :=
  (a.x - e.x) * (a.x - e.x) + (a.y - e.y) * (a.y - e.y)

/-- The branch cascade of `get_hp_bucket`, as a function of the computed
ratio. -/
def hpBucketOfRatio (ratio : ℚ) : ℤ :=
  if ratio ≤ HP_THRESHOLDS "critical" then HP_CRITICAL
  else if ratio ≤ HP_THRESHOLDS "low" then HP_LOW
  else if ratio ≤ HP_THRESHOLDS "medium" then HP_MEDIUM
  else HP_HIGH

/-- `get_hp_bucket`: `ratio = hp / max_hp if max_hp > 0 else 0`. -/
def get_hp_bucket (hp max_hp : ℤ) : ℤ :=
  hpBucketOfRatio (if 0 < max_hp then (hp : ℚ) / (max_hp : ℚ) else 0)

/-- `get_stamina_bucket` -/
def get_stamina_bucket (stamina : ℚ) : ℤ :=
  if 25 ≤ stamina then STAMINA_HIGH else STAMINA_LOW

/-- Python's `min(alive, key=...)`: first element with minimal key.
Minimising `sqrt(distSq)` equals minimising `distSq`. -/
def minByDistSq (a : AgentBody) : List Enemy → Option Enemy
  | [] => none
  | e :: es =>
    match minByDistSq a es with
    | none => some e
    | some m => if distSq a e ≤ distSq a m then some e else some m

/-- `get_nearest_enemy_type` -/
def get_nearest_enemy_type (a : AgentBody) (enemies : List Enemy) : ℤ × Option Enemy :=
  let alive_enemies := enemies.filter (fun e => decide (0 < e.hp))
  match minByDistSq a alive_enemies with
  | none => (ENEMY_NONE, none)
  | some nearest =>
    ((if nearest.enemy_type = "melee" then ENEMY_MELEE else ENEMY_RANGED), some nearest)

/-- `get_threat_level`; `recent_damage` is the encoder's accumulator field. -/
def get_threat_level (recent_damage : ℚ) (a : AgentBody) (enemies : List Enemy) : ℤ :=
  let alive_enemies := enemies.filter (fun e => decide (0 < e.hp))
  if alive_enemies.isEmpty then THREAT_LOW
  else
    let close_enemies := (alive_enemies.filter (fun e => decide (distSq a e < 150 * 150))).length
    let threat_score : ℚ := (close_enemies : ℚ) + recent_damage / 20
    if 2 ≤ threat_score then THREAT_HIGH
    else if 1 ≤ threat_score then THREAT_MEDIUM
    else THREAT_LOW

/-- `is_in_attack_range` (`distance <= ATTACK_RANGE`, squared model). -/
def is_in_attack_range (a : AgentBody) (nearest_enemy : Option Enemy) : ℤ :=
  match nearest_enemy with
  | none => IN_RANGE_NO
  | some e => if distSq a e ≤ ATTACK_RANGE * ATTACK_RANGE then IN_RANGE_YES else IN_RANGE_NO

/-- `get_height_advantage` -/
def get_height_advantage (a : AgentBody) (nearest_enemy : Option Enemy) : ℤ :=
  match nearest_enemy with
  | none => HEIGHT_SAME
  | some e =>
    let height_diff := e.y - a.y
    if 30 < height_diff then HEIGHT_ABOVE
    else if height_diff < -30 then HEIGHT_BELOW
    else HEIGHT_SAME

/-- `is_near_hazard`: the terrain manager is an external collaborator;
its `is_near_hazard(agent, 60)` answer is abstracted as the payload of
the optional argument. -/
def is_near_hazard (terrain_manager : Option Bool) : ℤ :=
  match terrain_manager with
  | none => NEAR_HAZARD_NO
  | some b => if b then NEAR_HAZARD_YES else NEAR_HAZARD_NO

/-- `encode_state`: the 7-component observation tuple. -/
def encode_state (recent_damage : ℚ) (a : AgentBody) (enemies : List Enemy)
    (terrain_manager : Option Bool) : Obs :=
  let hp_bucket := get_hp_bucket a.hp a.max_hp
  let stamina_bucket := get_stamina_bucket a.stamina
  let etn := get_nearest_enemy_type a enemies
  let threat_level := get_threat_level recent_damage a enemies
  let in_range := is_in_attack_range a etn.2
  let height_adv := get_height_advantage a etn.2
  let near_hazard := is_near_hazard terrain_manager
  [hp_bucket, stamina_bucket, etn.1, threat_level, in_range, height_adv, near_hazard]

/-! ## Serialization (get_q_table_dict / load_q_table_dict)

String manipulation is modelled on `List Char` (a `String` is exactly a
packed `List Char`).  Rendering follows Python's `f"{state}:{action}"`
with `str` on tuples and ints; parsing follows
`key.rsplit(':', 1)` / `.strip('()')` / `.split(',')` / `int(x.strip())`. -/

def isDigitChar (c : Char) : Bool :=
  decide ('0' ≤ c) && decide (c ≤ '9')

def digitToChar : ℕ → Char
  | 0 => '0'
  | 1 => '1'
  | 2 => '2'
  | 3 => '3'
  | 4 => '4'
  | 5 => '5'
  | 6 => '6'
  | 7 => '7'
  | 8 => '8'
  | _ => '9'

/-- Little-endian decimal digits of a natural number (empty for 0). -/
def natToRevDigits : ℕ → List Char
  | 0 => []
  | n + 1 => digitToChar ((n + 1) % 10) :: natToRevDigits ((n + 1) / 10)
decreasing_by exact Nat.div_lt_self (Nat.succ_pos n) (by norm_num)

/-- Python `str` of a non-negative int. -/
def renderNat (n : ℕ) : List Char :=
  if n = 0 then ['0'] else (natToRevDigits n).reverse

/-- Python `str` of an int. -/
def renderInt (z : ℤ) : List Char :=
  if z < 0 then '-' :: renderNat z.natAbs else renderNat z.toNat

/-- The comma-and-space separated body of Python's `str` of an int tuple. -/
def renderObsBody : Obs → List Char
  | [] => []
  | [x] => renderInt x
  | x :: xs => renderInt x ++ ',' :: ' ' :: renderObsBody xs

/-- Python `str` of an int tuple: `"(a, b)"`, `"(a,)"`, `"()"`. -/
def renderObs (s : Obs) : List Char :=
  match s with
  | [x] => '(' :: (renderInt x ++ [',', ')'])
  | _ => '(' :: (renderObsBody s ++ [')'])

/-- The serialized key `f"{state}:{action}"`. -/
def renderQKey (s : Obs) (a : ℤ) : List Char :=
  renderObs s ++ ':' :: renderInt a

def strKey (k : QKey) : String :=
  String.mk (renderQKey k.1 k.2)

def isSpaceChar (c : Char) : Bool :=
  c == ' ' || c == '\t' || c == '\n' || c == '\r'

/-- Python `str.strip()` (no argument): remove surrounding whitespace. -/
def stripWs (l : List Char) : List Char :=
  ((l.dropWhile isSpaceChar).reverse.dropWhile isSpaceChar).reverse

def isParenChar (c : Char) : Bool :=
  c == '(' || c == ')'

/-- Python `str.strip('()')`: remove all leading/trailing parentheses. -/
def stripParens (l : List Char) : List Char :=
  ((l.dropWhile isParenChar).reverse.dropWhile isParenChar).reverse

def digitsVal (l : List Char) : ℕ :=
  l.foldl (fun acc c => 10 * acc + (c.toNat - 48)) 0

/-- An unsigned all-digits numeral. -/
def parseNatDigits (l : List Char) : Option ℕ :=
  if l ≠ [] ∧ l.all isDigitChar then some (digitsVal l) else none

/-- Python `int(s)` on the strings reachable here: surrounding whitespace,
an optional sign, then decimal digits; anything else raises `ValueError`
(modelled as `none`). -/
def parseInt (l0 : List Char) : Option ℤ :=
  let l := stripWs l0
  match l with
  | [] => none
  | c :: rest =>
    if c = '-' then (parseNatDigits rest).map (fun n => -(n : ℤ))
    else if c = '+' then (parseNatDigits rest).map (fun n => (n : ℤ))
    else (parseNatDigits l).map (fun n => (n : ℤ))

/-- `key.rsplit(':', 1)`: `none` when the key has no colon (then
`parts[1]` raises `IndexError`); otherwise the parts around the last
colon. -/
def rsplitColon (l : List Char) : Option (List Char × List Char) :=
  let r := l.reverse
  match r.dropWhile (fun c => !(c == ':')) with
  | [] => none
  | _ :: restRev => some (restRev.reverse, (r.takeWhile (fun c => !(c == ':'))).reverse)

/-- Python `split(',')` (never returns an empty list). -/
def splitComma : List Char → List (List Char)
  | [] => [[]]
  | c :: rest =>
    if c = ',' then [] :: splitComma rest
    else
      match splitComma rest with
      | [] => [[c]]
      | h :: t => (c :: h) :: t

/-- `tuple(int(x.strip()) for x in state_str.split(','))`: parse every
component, failing on the first `ValueError`. -/
def parseComps : List (List Char) → Option (List ℤ)
  | [] => some []
  | p :: rest =>
    match parseInt p with
    | none => none
    | some v =>
      match parseComps rest with
      | none => none
      | some vs => some (v :: vs)

/-- One `load_q_table_dict` loop body: split off the action after the
last colon, `int()` it, strip parentheses, split the body on commas and
`int()` each stripped component.  `none` models the raised exception. -/
def parseQKey (key : List Char) : Option QKey :=
  match rsplitColon key with
  | none => none
  | some (state_str, action_str) =>
    match parseInt action_str with
    | none => none
    | some action =>
      match parseComps (splitComma (stripParens state_str)) with
      | none => none
      | some comps => some (comps, action)

/-- The telemetry sub-block written by `get_q_table_dict` under
`'stats'`.  (`load_q_table_dict` reads each field with a `.get(...,
default)`; the serializer always writes every field, which is the case
modelled here.) -/
structure SaveStats where
  total_battles : ℕ
  battles_won : ℕ
  floors_cleared : ℕ
  highest_floor : ℕ
  total_learning_updates : ℕ
  lessons_learned : List String
  player_taught_actions : ℕ

/-- The serialized save dictionary: the context-keyed string-to-value
tables in iteration order, and the `'stats'` entry (which the load loop
skips by name). -/
structure SaveData where
  contexts : List (String × List (String × ℚ))
  stats : Option SaveStats

/-- The per-context serialization loop of `get_q_table_dict`:
`data[context][key] = value` over `q_table.items()` in order. -/
def serializeTable (t : QTable) : List (String × ℚ) :=
  t.foldl (fun d kv => dictSet d (strKey kv.1) kv.2) []

/-- `get_q_table_dict` -/
def get_q_table_dict (ag : QLearningAgent) : SaveData :=
  { contexts := [("combat", serializeTable ag.combat_q),
                 ("base", serializeTable ag.base_q),
                 ("minigame", serializeTable ag.minigame_q)],
    stats := some { total_battles := ag.total_battles,
                    battles_won := ag.battles_won,
                    floors_cleared := ag.floors_cleared,
                    highest_floor := ag.highest_floor,
                    total_learning_updates := ag.total_learning_updates,
                    lessons_learned := ag.lessons_learned,
                    player_taught_actions := ag.player_taught_actions } }

/-- The inner key loop of `load_q_table_dict` over one serialized table,
mutating the aliased `q_table` in place.  On a malformed key the
`ValueError`/`IndexError` propagates; the error value carries the table
as already mutated by the preceding iterations. -/
def loadTable (t : QTable) : List (String × ℚ) → Except QTable QTable
  | [] => Except.ok t
  | (key, value) :: rest =>
    match parseQKey key.data with
    | none => Except.error t
    | some qk => loadTable (dictSet t qk value) rest

/-- The outer context loop of `load_q_table_dict`; an unknown context
name aliases the combat table via `_get_q_table`.  The error value
carries the whole agent as mutated so far. -/
def loadContexts (ag : QLearningAgent) :
    List (String × List (String × ℚ)) → Except QLearningAgent QLearningAgent
  | [] => Except.ok ag
  | (ctxName, entries) :: rest =>
    match loadTable (getQTable ag ctxName) entries with
    | Except.error t => Except.error (setQTable ag ctxName t)
    | Except.ok t => loadContexts (setQTable ag ctxName t) rest

/-- `load_q_table_dict`: reset the three tables, restore the stats
sub-block if present, then load every non-`'stats'` entry of the data
dictionary.  An `Except.error` is the propagated exception, carrying the
partially mutated agent. -/
def load_q_table_dict (ag : QLearningAgent) (data : SaveData) :
    Except QLearningAgent QLearningAgent :=
  let ag1 := { ag with combat_q := [], base_q := [], minigame_q := [] }
  let ag2 :=
    match data.stats with
    | some s =>
      { ag1 with total_battles := s.total_battles,
                 battles_won := s.battles_won,
                 floors_cleared := s.floors_cleared,
                 highest_floor := s.highest_floor,
                 total_learning_updates := s.total_learning_updates,
                 lessons_learned := s.lessons_learned,
                 player_taught_actions := s.player_taught_actions }
    | none => ag1
  loadContexts ag2 data.contexts

/-! ## Basic dictionary lemmas -/

theorem dictGet_dictSet_self {κ α : Type} [DecidableEq κ] (t : List (κ × α)) (k : κ)
    (v : α) (d : α) : dictGet (dictSet t k v) k d = v := by
  induction t with
  | nil => simp [dictSet, dictGet]
  | cons p t ih =>
    by_cases h : p.1 = k
    · simp [dictSet, dictGet, h]
    · simp only [dictSet, if_neg h]
      simpa [dictGet, List.find?_cons, h] using ih

theorem dictGet_dictSet_ne {κ α : Type} [DecidableEq κ] (t : List (κ × α)) (k k' : κ)
    (v : α) (d : α) (hne : k' ≠ k) : dictGet (dictSet t k v) k' d = dictGet t k' d := by
  induction t with
  | nil => simp [dictSet, dictGet, hne, Ne.symm hne]
  | cons p t ih =>
    by_cases h : p.1 = k
    · simp [dictSet, dictGet, h, hne, Ne.symm hne]
    · by_cases h' : p.1 = k'
      · simp [dictSet, dictGet, h, h', hne]
      · simp only [dictSet, if_neg h]
        simpa [dictGet, List.find?_cons, h'] using ih

theorem dictSet_fresh {κ α : Type} [DecidableEq κ] (t : List (κ × α)) (k : κ) (v : α)
    (h : k ∉ t.map Prod.fst) : dictSet t k v = t ++ [(k, v)] := by
  induction t with
  | nil => simp [dictSet]
  | cons p t ih =>
    simp only [List.map_cons, List.mem_cons] at h
    push_neg at h
    simp [dictSet, Ne.symm h.1, ih h.2]

/-! ## Context dispatch lemmas -/

theorem getQTable_setQTable_same (ag : QLearningAgent) (ctx : String) (t : QTable) :
    getQTable (setQTable ag ctx t) ctx = t := by
  by_cases h1 : ctx = "combat" <;> by_cases h2 : ctx = "base" <;>
    by_cases h3 : ctx = "minigame" <;> simp [getQTable, setQTable, h1, h2, h3]

theorem get_q_set_q_self (ag : QLearningAgent) (s : Obs) (a : ℤ) (v : ℚ) (ctx : String) :
    get_q (set_q ag s a v ctx) s a ctx = v := by
  unfold get_q set_q
  rw [getQTable_setQTable_same]
  exact dictGet_dictSet_self ..

theorem get_q_set_q_ne (ag : QLearningAgent) (s s2 : Obs) (a a2 : ℤ) (v : ℚ)
    (ctx : String) (hne : (s2, a2) ≠ (s, a)) :
    get_q (set_q ag s a v ctx) s2 a2 ctx = get_q ag s2 a2 ctx := by
  unfold get_q set_q
  rw [getQTable_setQTable_same]
  exact dictGet_dictSet_ne _ _ _ _ _ hne

theorem maybeAddLesson_q_tables (ag : QLearningAgent) (s : Obs) (a : ℤ) (q r : ℚ) :
    (maybeAddLesson ag s a q r).combat_q = ag.combat_q
    ∧ (maybeAddLesson ag s a q r).base_q = ag.base_q
    ∧ (maybeAddLesson ag s a q r).minigame_q = ag.minigame_q := by
  unfold maybeAddLesson
  rcases lessonText s a q r with _ | L
  · exact ⟨rfl, rfl, rfl⟩
  · by_cases hL : L ∈ ag.lessons_learned <;> simp [hL]

theorem learn_q_tables (ag : QLearningAgent) (s : Obs) (a : ℤ) (r : ℚ) (ns : Obs)
    (ctx : String) (done : Bool) :
    (learn ag s a r ns ctx done).combat_q
        = (set_q ag s a (learnNewQ ag s a r ns ctx done) ctx).combat_q
    ∧ (learn ag s a r ns ctx done).base_q
        = (set_q ag s a (learnNewQ ag s a r ns ctx done) ctx).base_q
    ∧ (learn ag s a r ns ctx done).minigame_q
        = (set_q ag s a (learnNewQ ag s a r ns ctx done) ctx).minigame_q := by
  simp only [learn]
  split
  · exact ⟨(maybeAddLesson_q_tables ..).1, (maybeAddLesson_q_tables ..).2.1,
      (maybeAddLesson_q_tables ..).2.2⟩
  · exact ⟨rfl, rfl, rfl⟩

theorem get_q_learn (ag : QLearningAgent) (s : Obs) (a : ℤ) (r : ℚ) (ns : Obs)
    (ctx : String) (done : Bool) (s2 : Obs) (a2 : ℤ) (ctx2 : String) :
    get_q (learn ag s a r ns ctx done) s2 a2 ctx2
        = get_q (set_q ag s a (learnNewQ ag s a r ns ctx done) ctx) s2 a2 ctx2 := by
  obtain ⟨h1, h2, h3⟩ := learn_q_tables ag s a r ns ctx done
  simp only [get_q, getQTable, h1, h2, h3]

/-- C1: `learn` updates exactly the entry `Q(state, action)` by
`Q ← Q + alpha * (target − Q)`, with `target = reward` for terminal
transitions and `target = reward + gamma * max_a' Q(next_state, a')`
over the context's full action set otherwise (absent entries read `0`);
with a fresh agent (`alpha = 0.1`, `gamma = 0.95`, all values `0`),
`learn(s0, A, 5, s1, done=False)` leaves `Q(s0, A) = 0.5`; when `done`
is true the stored values for the next state have no effect. -/
theorem learn_spec (ag : QLearningAgent) (s : Obs) (a : ℤ) (r : ℚ) (ns : Obs)
    (ctx : String) (done : Bool) :
    get_q (learn ag s a r ns ctx done) s a ctx
        = get_q ag s a ctx
          + ag.alpha * ((if done then r
              else r + ag.gamma * listMax ((getActions ctx).map
                (fun a2 => get_q ag ns a2 ctx))) - get_q ag s a ctx)
    ∧ (∀ s2 a2, (s2, a2) ≠ (s, a) →
        get_q (learn ag s a r ns ctx done) s2 a2 ctx = get_q ag s2 a2 ctx)
    ∧ (∀ ns2, learn ag s a r ns ctx true = learn ag s a r ns2 ctx true)
    ∧ get_q (learn initAgent [0, 0, 0, 0, 0, 0, 0] 1 5 [1, 0, 0, 0, 0, 0, 0]
        "combat" false) [0, 0, 0, 0, 0, 0, 0] 1 "combat" = 1/2 := by
  refine ⟨?_, ?_, ?_, ?_⟩
  · rw [get_q_learn, get_q_set_q_self]
    rfl
  · intro s2 a2 hne
    rw [get_q_learn]
    exact get_q_set_q_ne ag s s2 a a2 _ ctx hne
  · intro ns2
    rfl
  · rw [get_q_learn, get_q_set_q_self]
    have hz : ∀ (s2 : Obs) (a2 : ℤ), get_q initAgent s2 a2 "combat" = 0 :=
      fun s2 a2 => rfl
    have hm : listMax ((getActions "combat").map
        (fun a2 => get_q initAgent [1, 0, 0, 0, 0, 0, 0] a2 "combat")) = 0 := by
      simp only [getActions, COMBAT_ACTIONS, List.map_cons, List.map_nil, hz]
      norm_num [listMax]
    unfold learnNewQ learnTarget
    rw [hm, hz]
    norm_num [initAgent, BASE_ALPHA, GAMMA]

/-- The witness discharges the inequality hypothesis of the
untouched-entry conjunct at a concrete index. -/
theorem learn_spec_witness :
    get_q (learn initAgent [0, 0, 0, 0, 0, 0, 0] 1 5 [1, 0, 0, 0, 0, 0, 0]
        "combat" false) [2, 0, 0, 0, 0, 0, 0] 3 "combat"
      = get_q initAgent [2, 0, 0, 0, 0, 0, 0] 3 "combat" :=
  (learn_spec initAgent [0, 0, 0, 0, 0, 0, 0] 1 5 [1, 0, 0, 0, 0, 0, 0]
    "combat" false).2.1 [2, 0, 0, 0, 0, 0, 0] 3 (by decide)

/-- C7: for every ratio in `[0, 1]` the HP-bucket cascade assigns
exactly one bucket — the first (most-severe-first) whose upper bound the
ratio does not exceed, comparing with `≤` — so a ratio equal to a
threshold falls in the more-severe bucket: `0.25 ↦ critical`,
`0.50 ↦ low`, `0.75 ↦ medium`. -/
theorem hp_bucket_spec (r : ℚ) (h0 : 0 ≤ r) (h1 : r ≤ 1) :
    (hpBucketOfRatio r = HP_CRITICAL ↔ r ≤ HP_THRESHOLDS "critical")
    ∧ (hpBucketOfRatio r = HP_LOW ↔ HP_THRESHOLDS "critical" < r ∧ r ≤ HP_THRESHOLDS "low")
    ∧ (hpBucketOfRatio r = HP_MEDIUM ↔ HP_THRESHOLDS "low" < r ∧ r ≤ HP_THRESHOLDS "medium")
    ∧ (hpBucketOfRatio r = HP_HIGH ↔ HP_THRESHOLDS "medium" < r)
    ∧ hpBucketOfRatio (1/4) = HP_CRITICAL
    ∧ hpBucketOfRatio (1/2) = HP_LOW
    ∧ hpBucketOfRatio (3/4) = HP_MEDIUM
    ∧ get_hp_bucket 25 100 = HP_CRITICAL := by
  have hc : HP_THRESHOLDS "critical" = 1/4 := rfl
  have hl : HP_THRESHOLDS "low" = 1/2 := rfl
  have hm : HP_THRESHOLDS "medium" = 3/4 := rfl
  have e1 : hpBucketOfRatio (1/4) = HP_CRITICAL := by
    norm_num [hpBucketOfRatio, hc]
  have e2 : hpBucketOfRatio (1/2) = HP_LOW := by
    norm_num [hpBucketOfRatio, hc, hl]
  have e3 : hpBucketOfRatio (3/4) = HP_MEDIUM := by
    norm_num [hpBucketOfRatio, hc, hl, hm]
  have e4 : get_hp_bucket 25 100 = HP_CRITICAL := by
    norm_num [get_hp_bucket, hpBucketOfRatio, hc]
  refine ⟨?_, ?_, ?_, ?_, e1, e2, e3, e4⟩ <;>
    · unfold hpBucketOfRatio HP_CRITICAL HP_LOW HP_MEDIUM HP_HIGH
      rw [hc, hl, hm]
      split_ifs with g1 g2 g3 <;> constructor <;>
        first
          | (intro hh; omega)
          | (intro hh; constructor <;> linarith)
          | (intro hh; linarith)

/-- The witness instantiates the range hypotheses at the critical
boundary ratio `0.25`. -/
theorem hp_bucket_spec_witness :
    hpBucketOfRatio (1/4) = HP_CRITICAL ∧ (1/4 : ℚ) ≤ HP_THRESHOLDS "critical" :=
  ⟨((hp_bucket_spec (1/4) (by norm_num) (by norm_num)).1).2
      (by rw [show HP_THRESHOLDS "critical" = 1/4 from rfl]),
   by rw [show HP_THRESHOLDS "critical" = 1/4 from rfl]⟩

/-- C8: each `decay_epsilon` call sets
`epsilon ← max(epsilon_min, epsilon * decay_rate)`; over repeated calls
from any starting value, the produced values never fall below
`epsilon_min` and are non-increasing. -/
theorem decay_epsilon_spec (ag : QLearningAgent) (n : ℕ) :
    (decay_epsilon ag).epsilon = max EPSILON_MIN (ag.epsilon * EPSILON_DECAY)
    ∧ EPSILON_MIN ≤ (decay_epsilon^[n + 1] ag).epsilon
    ∧ (decay_epsilon^[n + 2] ag).epsilon ≤ (decay_epsilon^[n + 1] ag).epsilon := by
  have hfloor : ∀ b : QLearningAgent, EPSILON_MIN ≤ (decay_epsilon b).epsilon :=
    fun b => le_max_left _ _
  have hstep : ∀ b : QLearningAgent, EPSILON_MIN ≤ b.epsilon →
      (decay_epsilon b).epsilon ≤ b.epsilon := by
    intro b hb
    have hnn : (0 : ℚ) ≤ b.epsilon := le_trans (by norm_num [EPSILON_MIN]) hb
    refine max_le hb ?_
    calc b.epsilon * EPSILON_DECAY ≤ b.epsilon * 1 := by
          refine mul_le_mul_of_nonneg_left ?_ hnn
          norm_num [EPSILON_DECAY]
      _ = b.epsilon := mul_one _
  refine ⟨rfl, ?_, ?_⟩
  · rw [Function.iterate_succ_apply']
    exact hfloor _
  · rw [Function.iterate_succ_apply' decay_epsilon (n + 1)]
    refine hstep _ ?_
    rw [Function.iterate_succ_apply']
    exact hfloor _

theorem getQTable_combat (ag : QLearningAgent) : getQTable ag "combat" = ag.combat_q := by
  simp [getQTable]

theorem getActions_combat : getActions "combat" = COMBAT_ACTIONS := by
  simp [getActions]

/-- C10: every context string outside `{combat, base, minigame}` silently
falls back to the combat Q-table and the combat action set in
`choose_action`, `learn`, `get_q` and `set_q` (no unknown-context
failure path exists). -/
theorem unknown_context_fallback (ag : QLearningAgent) (ctx : String) (s ns : Obs)
    (a : ℤ) (v r : ℚ) (i : ℕ) (done : Bool)
    (h1 : ctx ≠ "combat") (h2 : ctx ≠ "base") (h3 : ctx ≠ "minigame") :
    getQTable ag ctx = ag.combat_q
    ∧ getActions ctx = COMBAT_ACTIONS
    ∧ get_q ag s a ctx = get_q ag s a "combat"
    ∧ set_q ag s a v ctx = set_q ag s a v "combat"
    ∧ (learn ag s a r ns ctx done).combat_q = (learn ag s a r ns "combat" done).combat_q
    ∧ (learn ag s a r ns ctx done).base_q = ag.base_q
    ∧ (learn ag s a r ns ctx done).minigame_q = ag.minigame_q
    ∧ (choose_action ag r i s ctx).1 = (choose_action ag r i s "combat").1 := by
  have hT : getQTable ag ctx = ag.combat_q := by
    simp [getQTable, h1, h2, h3]
  have hA : getActions ctx = COMBAT_ACTIONS := by
    simp [getActions, h1, h2, h3]
  have hq : ∀ (s2 : Obs) (a2 : ℤ), get_q ag s2 a2 ctx = get_q ag s2 a2 "combat" := by
    intro s2 a2
    unfold get_q
    rw [hT, getQTable_combat]
  have hnq : learnNewQ ag s a r ns ctx done = learnNewQ ag s a r ns "combat" done := by
    unfold learnNewQ learnTarget
    rw [hA, getActions_combat]
    simp only [hq]
  have hset : ∀ w : ℚ, set_q ag s a w ctx = set_q ag s a w "combat" := by
    intro w
    unfold set_q setQTable
    rw [hT, getQTable_combat]
    simp [h1, h2, h3]
  have hbest : bestActions ag s ctx = bestActions ag s "combat" := by
    unfold bestActions
    rw [hA, getActions_combat]
    simp only [hq]
  refine ⟨hT, hA, hq s a, hset v, ?_, ?_, ?_, ?_⟩
  · rw [(learn_q_tables ag s a r ns ctx done).1,
      (learn_q_tables ag s a r ns "combat" done).1, hnq, hset]
  · rw [(learn_q_tables ag s a r ns ctx done).2.1]
    simp [set_q, setQTable, h1, h2, h3]
  · rw [(learn_q_tables ag s a r ns ctx done).2.2]
    simp [set_q, setQTable, h1, h2, h3]
  · simp only [choose_action, hA, getActions_combat, hbest]

/-- The witness instantiates the fallback at the unknown context
`"dungeon"`. -/
theorem unknown_context_fallback_witness :
    getQTable initAgent "dungeon" = initAgent.combat_q
    ∧ getActions "dungeon" = COMBAT_ACTIONS :=
  ⟨(unknown_context_fallback initAgent "dungeon" [] [] 0 0 0 0 false
      (by decide) (by decide) (by decide)).1,
   (unknown_context_fallback initAgent "dungeon" [] [] 0 0 0 0 false
      (by decide) (by decide) (by decide)).2.1⟩

/-! ## C6: threat level -/

/-- The threat bucket described by the claim, for every input: the score
`count(alive enemies within radius 150 of the agent) + recent_damage/20`
mapped to low on `score < 1`, medium on `1 ≤ score < 2`, high on
`2 ≤ score`. -/
def specThreatBucket (recent_damage : ℚ) (a : AgentBody) (enemies : List Enemy) : ℤ :=
  let score : ℚ :=
    ((enemies.filter (fun e => decide (0 < e.hp) && decide (distSq a e < 150 * 150))).length : ℚ)
      + recent_damage / 20
  if score < 1 then THREAT_LOW
  else if score < 2 then THREAT_MEDIUM
  else THREAT_HIGH

/-- C6 counterexample: with no alive enemies and recent damage `40` the
source returns low, while the claimed score bucket (`score = 2`) is
high. -/
theorem threat_level_counterexample :
    get_threat_level 40 ⟨100, 100, 50, 0, 0⟩ [] = THREAT_LOW
    ∧ specThreatBucket 40 ⟨100, 100, 50, 0, 0⟩ [] = THREAT_HIGH
    ∧ THREAT_LOW ≠ THREAT_HIGH := by
  refine ⟨rfl, ?_, by norm_num [THREAT_LOW, THREAT_HIGH]⟩
  norm_num [specThreatBucket, THREAT_HIGH]

/-- C6 amended: the claimed score bucket describes `get_threat_level`
exactly when at least one enemy is alive; with no alive enemies the
source returns low regardless of the recent-damage accumulator. -/
theorem threat_level_amended (rd : ℚ) (a : AgentBody) (enemies : List Enemy) :
    (enemies.filter (fun e => decide (0 < e.hp)) ≠ [] →
      get_threat_level rd a enemies = specThreatBucket rd a enemies)
    ∧ (enemies.filter (fun e => decide (0 < e.hp)) = [] →
      get_threat_level rd a enemies = THREAT_LOW) := by
  constructor
  · intro h
    have hE : (enemies.filter (fun e => decide (0 < e.hp))).isEmpty = false := by
      cases hc : enemies.filter (fun e => decide (0 < e.hp)) with
      | nil => exact absurd hc h
      | cons x xs => rfl
    have hcount : ((enemies.filter (fun e => decide (0 < e.hp))).filter
          (fun e => decide (distSq a e < 150 * 150))).length
        = (enemies.filter
            (fun e => decide (0 < e.hp) && decide (distSq a e < 150 * 150))).length := by
      rw [List.filter_filter]
      have hpred : (fun e => decide (distSq a e < 150 * 150) && decide (0 < e.hp))
          = (fun e : Enemy => decide (0 < e.hp) && decide (distSq a e < 150 * 150)) := by
        funext e
        exact Bool.and_comm _ _
      rw [hpred]
    simp only [get_threat_level, specThreatBucket]
    rw [hE]
    simp only [Bool.false_eq_true, if_false, hcount]
    split_ifs <;> first | rfl | linarith
  · intro h
    unfold get_threat_level
    rw [h]
    rfl

/-- The witness exercises both branches of the amended statement: one
alive enemy far away with recent damage 40 scores `2` (high), and no
enemies at all give low. -/
theorem threat_level_amended_witness :
    get_threat_level 40 ⟨100, 100, 50, 0, 0⟩ [⟨5, 1000, 0, "melee"⟩]
        = specThreatBucket 40 ⟨100, 100, 50, 0, 0⟩ [⟨5, 1000, 0, "melee"⟩]
    ∧ get_threat_level 40 ⟨100, 100, 50, 0, 0⟩ [] = THREAT_LOW :=
  ⟨(threat_level_amended 40 ⟨100, 100, 50, 0, 0⟩ [⟨5, 1000, 0, "melee"⟩]).1
      (by norm_num [List.filter]),
   (threat_level_amended 40 ⟨100, 100, 50, 0, 0⟩ []).2 rfl⟩

/-! ## C2: greedy selection -/

/-- The local `max_q` of `choose_action`. -/
def maxQ (ag : QLearningAgent) (state : Obs) (context : String) : ℚ :=
  listMax ((getActions context).map (fun a => get_q ag state a context))

theorem le_foldl_max (x : ℚ) (l : List ℚ) : x ≤ l.foldl max x := by
  induction l generalizing x with
  | nil => exact le_refl x
  | cons y ys ih => exact le_trans (le_max_left x y) (ih (max x y))

theorem mem_le_foldl_max (x : ℚ) (l : List ℚ) : ∀ y ∈ l, y ≤ l.foldl max x := by
  induction l generalizing x with
  | nil => intro y hy; cases hy
  | cons z zs ih =>
    intro y hy
    rcases List.mem_cons.mp hy with hz | hz
    · subst hz
      exact le_trans (le_max_right x y) (le_foldl_max (max x y) zs)
    · exact ih (max x z) y hz

theorem foldl_max_mem (x : ℚ) (l : List ℚ) : l.foldl max x ∈ x :: l := by
  induction l generalizing x with
  | nil => simp [List.foldl]
  | cons y ys ih =>
    rw [List.foldl_cons]
    rcases List.mem_cons.mp (ih (max x y)) with h | h
    · rcases max_choice x y with hc | hc
      · exact List.mem_cons.mpr (Or.inl (h.trans hc))
      · exact List.mem_cons.mpr (Or.inr (List.mem_cons.mpr (Or.inl (h.trans hc))))
    · exact List.mem_cons.mpr (Or.inr (List.mem_cons.mpr (Or.inr h)))

theorem listMax_mem (l : List ℚ) (h : l ≠ []) : listMax l ∈ l := by
  match l with
  | x :: xs => exact foldl_max_mem x xs

theorem le_listMax (l : List ℚ) : ∀ y ∈ l, y ≤ listMax l := by
  match l with
  | [] => intro y hy; cases hy
  | x :: xs =>
    intro y hy
    rcases List.mem_cons.mp hy with h | h
    · exact h ▸ le_foldl_max x xs
    · exact mem_le_foldl_max x xs y h

theorem zip_map_filter_fst {α β : Type} (l : List α) (f : α → β) (p : β → Bool) :
    ((l.zip (l.map f)).filter (fun q => p q.2)).map Prod.fst
      = l.filter (fun a => p (f a)) := by
  induction l with
  | nil => rfl
  | cons x xs ih =>
    by_cases hp : p (f x) = true
    · simp [List.zip_cons_cons, List.filter_cons, hp, ih]
    · simp only [Bool.not_eq_true] at hp
      simp [List.zip_cons_cons, List.filter_cons, hp, ih]

theorem bestActions_eq (ag : QLearningAgent) (s : Obs) (ctx : String) :
    bestActions ag s ctx
      = (getActions ctx).filter (fun a => decide (get_q ag s a ctx = maxQ ag s ctx)) := by
  simp only [bestActions, maxQ]
  exact zip_map_filter_fst (getActions ctx) (fun a => get_q ag s a ctx)
    (fun b => decide (b = listMax ((getActions ctx).map (fun a => get_q ag s a ctx))))

theorem getActions_ne_nil (ctx : String) : getActions ctx ≠ [] := by
  unfold getActions
  split_ifs <;> decide

theorem getActions_nodup (ctx : String) : (getActions ctx).Nodup := by
  unfold getActions
  split_ifs <;> decide

theorem mem_bestActions (ag : QLearningAgent) (s : Obs) (ctx : String) (a : ℤ) :
    a ∈ bestActions ag s ctx ↔ a ∈ getActions ctx ∧ get_q ag s a ctx = maxQ ag s ctx := by
  rw [bestActions_eq, List.mem_filter]
  simp only [decide_eq_true_eq]

theorem bestActions_ne_nil (ag : QLearningAgent) (s : Obs) (ctx : String) :
    bestActions ag s ctx ≠ [] := by
  have hmap : (getActions ctx).map (fun a => get_q ag s a ctx) ≠ [] := by
    intro hc
    exact getActions_ne_nil ctx (List.map_eq_nil.mp hc)
  obtain ⟨a, ha, hfa⟩ := List.mem_map.mp (listMax_mem _ hmap)
  exact List.ne_nil_of_mem ((mem_bestActions ag s ctx a).mpr ⟨ha, hfa⟩)

/-- C2: when the exploration branch is not taken (in particular whenever
`epsilon = 0`), `choose_action` draws `best_actions[i mod |best_actions|]`
for the uniformly random tie-break draw `i`; `best_actions` consists of
exactly the actions of maximal Q-value (`0` default), has no duplicates,
each of its members is the outcome for some draw, and the returned
action is never dominated. -/
theorem choose_action_greedy_spec (ag : QLearningAgent) (r : ℚ) (i : ℕ) (s : Obs)
    (ctx : String) (h : ¬ r < ag.epsilon) :
    ((choose_action ag r i s ctx).1
        = (bestActions ag s ctx).getD (i % (bestActions ag s ctx).length) 0)
    ∧ (∀ r2 : ℚ, 0 ≤ r2 → ag.epsilon = 0 → (choose_action ag r2 i s ctx).1
        = (bestActions ag s ctx).getD (i % (bestActions ag s ctx).length) 0)
    ∧ (∀ a, a ∈ bestActions ag s ctx
        ↔ a ∈ getActions ctx ∧ get_q ag s a ctx = maxQ ag s ctx)
    ∧ (∀ a2 ∈ getActions ctx,
        get_q ag s a2 ctx ≤ get_q ag s ((choose_action ag r i s ctx).1) ctx)
    ∧ (bestActions ag s ctx).Nodup
    ∧ (∀ a ∈ bestActions ag s ctx, ∃ j, j < (bestActions ag s ctx).length
        ∧ (bestActions ag s ctx).getD (j % (bestActions ag s ctx).length) 0 = a) := by
  have hlen : 0 < (bestActions ag s ctx).length :=
    List.length_pos.mpr (bestActions_ne_nil ag s ctx)
  have hform : ∀ r2 : ℚ, ¬ r2 < ag.epsilon → (choose_action ag r2 i s ctx).1
      = (bestActions ag s ctx).getD (i % (bestActions ag s ctx).length) 0 := by
    intro r2 h2
    simp only [choose_action, if_neg h2]
  have hchosen_mem : (choose_action ag r i s ctx).1 ∈ bestActions ag s ctx := by
    rw [hform r h, List.getD_eq_getElem _ _ (Nat.mod_lt i hlen)]
    exact List.getElem_mem _
  refine ⟨hform r h, ?_, mem_bestActions ag s ctx, ?_, ?_, ?_⟩
  · intro r2 hr2 he
    exact hform r2 (by rw [he]; exact not_lt.mpr hr2)
  · intro a2 ha2
    have hq := ((mem_bestActions ag s ctx _).mp hchosen_mem).2
    rw [hq]
    exact le_listMax _ _ (List.mem_map.mpr ⟨a2, ha2, rfl⟩)
  · rw [bestActions_eq]
    exact (getActions_nodup ctx).filter _
  · intro a ha
    obtain ⟨j, hj, hja⟩ := List.mem_iff_getElem.mp ha
    refine ⟨j, hj, ?_⟩
    rw [Nat.mod_eq_of_lt hj, List.getD_eq_getElem _ _ hj, hja]

/-- The witness exercises the greedy branch on a fresh agent with
`epsilon = 0`: every combat action ties at Q-value `0`, and draw `i = 3`
returns action `3`. -/
theorem choose_action_greedy_spec_witness :
    (choose_action { initAgent with epsilon := 0 } (1/2) 3 [0] "combat").1
        = (bestActions { initAgent with epsilon := 0 } [0] "combat").getD
            (3 % (bestActions { initAgent with epsilon := 0 } [0] "combat").length) 0 :=
  (choose_action_greedy_spec { initAgent with epsilon := 0 } (1/2) 3 [0] "combat"
    (by norm_num)).1

/-! ## C9: lesson list invariant -/

/-- The arguments of one `learn` call. -/
structure LearnStep where
  state : Obs
  action : ℤ
  reward : ℚ
  next_state : Obs
  context : String
  done : Bool

/-- A sequence of `learn` calls. -/
def applyLearns (ag : QLearningAgent) (steps : List LearnStep) : QLearningAgent :=
  steps.foldl
    (fun b st => learn b st.state st.action st.reward st.next_state st.context st.done) ag

/-- The lesson-list invariant: capped at 20 entries, no duplicates. -/
def lessonsInv (l : List String) : Prop :=
  l.length ≤ 20 ∧ l.Nodup

theorem set_q_lessons (ag : QLearningAgent) (s : Obs) (a : ℤ) (v : ℚ) (ctx : String) :
    (set_q ag s a v ctx).lessons_learned = ag.lessons_learned := by
  unfold set_q setQTable
  split_ifs <;> rfl

theorem maybeAddLesson_inv (ag : QLearningAgent) (s : Obs) (a : ℤ) (q r : ℚ)
    (h : lessonsInv ag.lessons_learned) :
    lessonsInv (maybeAddLesson ag s a q r).lessons_learned := by
  unfold maybeAddLesson
  rcases lessonText s a q r with _ | L
  · exact h
  · by_cases hL : L ∈ ag.lessons_learned
    · simpa [hL] using h
    · simp only [hL, if_false, Bool.false_eq_true]
      by_cases hlen : 20 < (ag.lessons_learned ++ [L]).length
      · have hne : ag.lessons_learned ≠ [] := by
          intro hc
          rw [hc] at hlen
          simp at hlen
        have htail : (ag.lessons_learned ++ [L]).tail = ag.lessons_learned.tail ++ [L] := by
          obtain ⟨x, xs, hx⟩ := List.exists_cons_of_ne_nil hne
          rw [hx]
          rfl
        simp only [if_pos hlen, htail]
        constructor
        · have := h.1
          rw [List.length_append, List.length_tail]
          simp only [List.length_singleton]
          omega
        · have hsub : ag.lessons_learned.tail.Sublist ag.lessons_learned :=
            List.tail_sublist _
          have hnd : ag.lessons_learned.tail.Nodup := h.2.sublist hsub
          have hLn : L ∉ ag.lessons_learned.tail := fun hc => hL (hsub.mem hc)
          simp [List.nodup_append, hnd, hLn]
      · simp only [if_neg hlen]
        rw [not_lt, List.length_append, List.length_singleton] at hlen
        exact ⟨by rw [List.length_append, List.length_singleton]; omega,
          by simp [List.nodup_append, h.2, hL]⟩

theorem learn_lessons_inv (ag : QLearningAgent) (s : Obs) (a : ℤ) (r : ℚ) (ns : Obs)
    (ctx : String) (done : Bool) (h : lessonsInv ag.lessons_learned) :
    lessonsInv (learn ag s a r ns ctx done).lessons_learned := by
  simp only [learn]
  split
  · refine maybeAddLesson_inv _ _ _ _ _ ?_
    show lessonsInv (set_q ag s a (learnNewQ ag s a r ns ctx done) ctx).lessons_learned
    rw [set_q_lessons]
    exact h
  · show lessonsInv (set_q ag s a (learnNewQ ag s a r ns ctx done) ctx).lessons_learned
    rw [set_q_lessons]
    exact h

theorem applyLearns_inv (steps : List LearnStep) : ∀ ag : QLearningAgent,
    lessonsInv ag.lessons_learned → lessonsInv (applyLearns ag steps).lessons_learned := by
  induction steps with
  | nil => exact fun ag h => h
  | cons st rest ih =>
    intro ag h
    exact ih _ (learn_lessons_inv ag st.state st.action st.reward st.next_state
      st.context st.done h)

/-- C9: after any sequence of `learn` calls the lesson list keeps at most
20 entries and no duplicates; a lesson is only considered for the combat
context when `|new_q − old_q| > 5`; when neither reward threshold nor the
mastery threshold fires no lesson is derived; and a new lesson arriving
at the 20-entry cap evicts the oldest entry (FIFO). -/
theorem lessons_invariant_spec (ag : QLearningAgent) (steps : List LearnStep)
    (s ns : Obs) (a : ℤ) (r q : ℚ) (ctx : String) (done : Bool) (L : String)
    (hInv : lessonsInv ag.lessons_learned) :
    lessonsInv (applyLearns ag steps).lessons_learned
    ∧ (ctx ≠ "combat" →
        (learn ag s a r ns ctx done).lessons_learned = ag.lessons_learned)
    ∧ (|learnNewQ ag s a r ns ctx done - get_q ag s a ctx| ≤ 5 →
        (learn ag s a r ns ctx done).lessons_learned = ag.lessons_learned)
    ∧ (¬ 20 < r → ¬ r < -20 → ¬ 30 < q → lessonText s a q r = none)
    ∧ (lessonText s a q r = some L → L ∉ ag.lessons_learned →
        ag.lessons_learned.length = 20 →
        (maybeAddLesson ag s a q r).lessons_learned
          = ag.lessons_learned.tail ++ [L]) := by
  have hset : ∀ v : ℚ, (set_q ag s a v ctx).lessons_learned = ag.lessons_learned :=
    fun v => set_q_lessons ag s a v ctx
  refine ⟨applyLearns_inv steps ag hInv, ?_, ?_, ?_, ?_⟩
  · intro hc
    simp only [learn]
    rw [if_neg (by intro hand; exact hc hand.1)]
    exact hset _
  · intro hle
    simp only [learn]
    rw [if_neg (by intro hand; exact absurd hand.2 (not_lt.mpr hle))]
    exact hset _
  · intro h1 h2 h3
    simp only [lessonText, gt_iff_lt, if_neg h1, if_neg h2, if_neg h3]
  · intro hsome hnot hlen
    unfold maybeAddLesson
    rw [hsome]
    have hne : ag.lessons_learned ≠ [] := by
      intro hc
      rw [hc] at hlen
      simp at hlen
    have htail : (ag.lessons_learned ++ [L]).tail = ag.lessons_learned.tail ++ [L] := by
      obtain ⟨x, xs, hx⟩ := List.exists_cons_of_ne_nil hne
      rw [hx]
      rfl
    simp only [hnot, if_false, Bool.false_eq_true]
    rw [if_pos (by rw [List.length_append, List.length_singleton, hlen]; omega), htail]

/-- The witness runs one non-combat `learn` call from a fresh agent: the
lesson list stays empty (and trivially satisfies the invariant). -/
theorem lessons_invariant_spec_witness :
    lessonsInv (applyLearns initAgent
        [⟨[0], 0, 0, [0], "base", false⟩]).lessons_learned
    ∧ (learn initAgent [0] 0 0 [0] "base" false).lessons_learned
        = initAgent.lessons_learned :=
  ⟨(lessons_invariant_spec initAgent [⟨[0], 0, 0, [0], "base", false⟩] [0] [0] 0 0 0
      "base" false "x" ⟨by decide, List.nodup_nil⟩).1,
   (lessons_invariant_spec initAgent [] [0] [0] 0 0 0 "base" false "x"
      ⟨by decide, List.nodup_nil⟩).2.1 (by decide)⟩

/-! ## Integer rendering / parsing round trip -/

/-- The characters that can occur in `str(int)`. -/
def intChars : List Char :=
  ['-', '0', '1', '2', '3', '4', '5', '6', '7', '8', '9']

/-- The digit characters. -/
def digitChars : List Char :=
  ['0', '1', '2', '3', '4', '5', '6', '7', '8', '9']

theorem digitToChar_mem (d : ℕ) : digitToChar d ∈ digitChars := by
  unfold digitToChar
  split <;> decide

theorem natToRevDigits_mem (n : ℕ) : ∀ c ∈ natToRevDigits n, c ∈ digitChars := by
  induction n using Nat.strong_induction_on with
  | _ n ih =>
    match n with
    | 0 =>
      intro c hc
      simp [natToRevDigits] at hc
    | m + 1 =>
      intro c hc
      rw [natToRevDigits] at hc
      rcases List.mem_cons.mp hc with h | h
      · exact h ▸ digitToChar_mem _
      · exact ih ((m + 1) / 10) (Nat.div_lt_self (Nat.succ_pos m) (by norm_num)) c h

theorem renderNat_mem (n : ℕ) : ∀ c ∈ renderNat n, c ∈ digitChars := by
  unfold renderNat
  split
  · intro c hc
    rcases List.mem_singleton.mp hc with rfl
    decide
  · intro c hc
    exact natToRevDigits_mem n c (List.mem_reverse.mp hc)

theorem renderNat_ne_nil (n : ℕ) : renderNat n ≠ [] := by
  unfold renderNat
  split
  · simp
  · rename_i h
    obtain ⟨m, rfl⟩ := Nat.exists_eq_succ_of_ne_zero h
    rw [natToRevDigits]
    simp

theorem renderInt_mem (z : ℤ) : ∀ c ∈ renderInt z, c ∈ intChars := by
  unfold renderInt
  have hd : ∀ c ∈ digitChars, c ∈ intChars := by decide
  split
  · intro c hc
    rcases List.mem_cons.mp hc with rfl | h
    · decide
    · exact hd c (renderNat_mem _ c h)
  · intro c hc
    exact hd c (renderNat_mem _ c hc)

theorem renderInt_ne_nil (z : ℤ) : renderInt z ≠ [] := by
  unfold renderInt
  split
  · simp
  · exact renderNat_ne_nil _

theorem digitToChar_toNat (d : ℕ) (h : d < 10) : (digitToChar d).toNat = 48 + d := by
  interval_cases d <;> decide

theorem digitsVal_append_digit (l : List Char) (c : Char) :
    digitsVal (l ++ [c]) = 10 * digitsVal l + (c.toNat - 48) := by
  simp [digitsVal, List.foldl_append]

theorem digitsVal_natToRevDigits (n : ℕ) :
    digitsVal (natToRevDigits n).reverse = n := by
  induction n using Nat.strong_induction_on with
  | _ n ih =>
    match n with
    | 0 => simp [natToRevDigits, digitsVal]
    | m + 1 =>
      rw [natToRevDigits, List.reverse_cons, digitsVal_append_digit,
        ih ((m + 1) / 10) (Nat.div_lt_self (Nat.succ_pos m) (by norm_num)),
        digitToChar_toNat ((m + 1) % 10) (Nat.mod_lt _ (by norm_num))]
      omega

theorem digitsVal_renderNat (n : ℕ) : digitsVal (renderNat n) = n := by
  unfold renderNat
  split
  · rename_i h
    rw [h]
    decide
  · exact digitsVal_natToRevDigits n

theorem parseNatDigits_renderNat (n : ℕ) : parseNatDigits (renderNat n) = some n := by
  have hdig : ∀ c ∈ digitChars, isDigitChar c = true := by decide
  have hall : (renderNat n).all isDigitChar = true := by
    rw [List.all_eq_true]
    intro c hc
    exact hdig c (renderNat_mem n c hc)
  rw [parseNatDigits, if_pos ⟨renderNat_ne_nil n, hall⟩, digitsVal_renderNat]

theorem dropWhile_eq_self_of_all {α : Type} (p : α → Bool) (l : List α)
    (h : ∀ c ∈ l, p c = false) : l.dropWhile p = l := by
  cases l with
  | nil => rfl
  | cons x xs =>
    rw [List.dropWhile_cons, h x (List.mem_cons_self x xs)]
    simp

theorem stripWs_eq_self (l : List Char) (h : ∀ c ∈ l, isSpaceChar c = false) :
    stripWs l = l := by
  unfold stripWs
  rw [dropWhile_eq_self_of_all _ _ h,
    dropWhile_eq_self_of_all _ _ (fun c hc => h c (List.mem_reverse.mp hc)),
    List.reverse_reverse]

theorem intChars_not_space : ∀ c ∈ intChars, isSpaceChar c = false := by decide

theorem parseInt_renderInt (z : ℤ) : parseInt (renderInt z) = some z := by
  have hmem := renderInt_mem z
  have hws : stripWs (renderInt z) = renderInt z :=
    stripWs_eq_self _ (fun c hc => intChars_not_space c (hmem c hc))
  by_cases hz : z < 0
  · have hr : renderInt z = '-' :: renderNat z.natAbs := by
      unfold renderInt
      rw [if_pos hz]
    rw [hr] at hws
    unfold parseInt
    rw [hr, hws]
    dsimp only
    rw [if_pos rfl]
    simp [parseNatDigits_renderNat]
    simp [abs_of_neg hz]
  · have hr : renderInt z = renderNat z.toNat := by
      unfold renderInt
      rw [if_neg hz]
    obtain ⟨c, rest, hcr⟩ := List.exists_cons_of_ne_nil (renderNat_ne_nil z.toNat)
    have hcd : c ∈ digitChars := by
      refine renderNat_mem z.toNat c ?_
      rw [hcr]
      exact List.mem_cons_self c rest
    have hsign : ∀ d ∈ digitChars, ¬ d = '-' ∧ ¬ d = '+' := by decide
    rw [hr] at hws
    unfold parseInt
    rw [hr, hws, hcr]
    dsimp only
    rw [if_neg (hsign c hcd).1, if_neg (hsign c hcd).2, ← hcr]
    simp [parseNatDigits_renderNat]
    omega

/-! ## Key round trip -/

theorem takeWhile_append_sat {α : Type} (p : α → Bool) (l1 : List α) (x : α)
    (l2 : List α) (h : ∀ c ∈ l1, p c = true) (hx : p x = false) :
    (l1 ++ x :: l2).takeWhile p = l1 := by
  induction l1 with
  | nil => simp [List.takeWhile_cons, hx]
  | cons y ys ih =>
    rw [List.cons_append, List.takeWhile_cons, h y (List.mem_cons_self y ys)]
    simp only [if_true]
    rw [ih (fun c hc => h c (List.mem_cons_of_mem y hc))]

theorem dropWhile_append_sat {α : Type} (p : α → Bool) (l1 : List α) (x : α)
    (l2 : List α) (h : ∀ c ∈ l1, p c = true) (hx : p x = false) :
    (l1 ++ x :: l2).dropWhile p = x :: l2 := by
  induction l1 with
  | nil => simp [List.dropWhile_cons, hx]
  | cons y ys ih =>
    rw [List.cons_append, List.dropWhile_cons, h y (List.mem_cons_self y ys)]
    simp only [if_true]
    exact ih (fun c hc => h c (List.mem_cons_of_mem y hc))

theorem rsplitColon_append (l1 l2 : List Char) (h : ∀ c ∈ l2, (c == ':') = false) :
    rsplitColon (l1 ++ ':' :: l2) = some (l1, l2) := by
  have hrev : (l1 ++ ':' :: l2).reverse = l2.reverse ++ ':' :: l1.reverse := by
    rw [List.reverse_append, List.reverse_cons, List.append_assoc,
      List.singleton_append]
  have hsat : ∀ c ∈ l2.reverse, (!(c == ':')) = true := by
    intro c hc
    rw [h c (List.mem_reverse.mp hc)]
    rfl
  unfold rsplitColon
  dsimp only
  rw [hrev, dropWhile_append_sat _ _ _ _ hsat (by decide),
    takeWhile_append_sat _ _ _ _ hsat (by decide)]
  dsimp only
  rw [List.reverse_reverse, List.reverse_reverse]

theorem stripParens_wrap (body : List Char) (c0 cn : Char) (rest : List Char)
    (hc : body = c0 :: rest) (hp0 : isParenChar c0 = false)
    (hn : body.getLast? = some cn) (hpn : isParenChar cn = false) :
    stripParens ('(' :: (body ++ [')'])) = body := by
  unfold stripParens
  rw [List.dropWhile_cons]
  simp only [show isParenChar '(' = true from rfl, if_true]
  rw [hc, List.cons_append, List.dropWhile_cons, hp0]
  simp only [Bool.false_eq_true, if_false]
  rw [← List.cons_append, ← hc, List.reverse_append]
  simp only [List.reverse_cons, List.reverse_nil, List.nil_append,
    List.singleton_append]
  rw [List.dropWhile_cons]
  simp only [show isParenChar ')' = true from rfl, if_true]
  have hrev : body.reverse.head? = some cn := by
    rw [List.head?_reverse]
    exact hn
  obtain ⟨d, ds, hds⟩ : ∃ d ds, body.reverse = d :: ds := by
    cases hbr : body.reverse with
    | nil =>
      rw [hbr] at hrev
      cases hrev
    | cons d ds => exact ⟨d, ds, rfl⟩
  have hdcn : d = cn := by
    rw [hds] at hrev
    simpa using hrev
  rw [hds, List.dropWhile_cons, hdcn, hpn]
  simp only [Bool.false_eq_true, if_false]
  rw [← hdcn, ← hds, List.reverse_reverse]

theorem splitComma_ne_nil (l : List Char) : splitComma l ≠ [] := by
  cases l with
  | nil => simp [splitComma]
  | cons c rest =>
    rw [splitComma]
    split_ifs
    · simp
    · cases splitComma rest <;> simp

theorem splitComma_no_comma (l : List Char) (h : ∀ c ∈ l, ¬ c = ',') :
    splitComma l = [l] := by
  induction l with
  | nil => rfl
  | cons c rest ih =>
    rw [splitComma, if_neg (h c (List.mem_cons_self c rest)),
      ih (fun d hd => h d (List.mem_cons_of_mem c hd))]

theorem splitComma_append (l1 l2 : List Char) (h : ∀ c ∈ l1, ¬ c = ',') :
    splitComma (l1 ++ ',' :: l2) = l1 :: splitComma l2 := by
  induction l1 with
  | nil =>
    rw [List.nil_append, splitComma, if_pos rfl]
  | cons c cs ih =>
    rw [List.cons_append, splitComma, if_neg (h c (List.mem_cons_self c cs)),
      ih (fun d hd => h d (List.mem_cons_of_mem c hd))]

theorem stripWs_cons_space (l : List Char) : stripWs (' ' :: l) = stripWs l := by
  unfold stripWs
  rw [List.dropWhile_cons]
  simp only [show isSpaceChar ' ' = true from rfl, if_true]

theorem parseInt_cons_space (l : List Char) : parseInt (' ' :: l) = parseInt l := by
  unfold parseInt
  rw [stripWs_cons_space]

theorem parseComps_splitComma_space (l : List Char) :
    parseComps (splitComma (' ' :: l)) = parseComps (splitComma l) := by
  obtain ⟨h0, t, ht⟩ := List.exists_cons_of_ne_nil (splitComma_ne_nil l)
  rw [splitComma, if_neg (by decide), ht]
  dsimp only
  rw [parseComps, parseComps, parseInt_cons_space]

theorem intChars_no_comma : ∀ c ∈ intChars, ¬ c = ',' := by decide

theorem parseComps_renderObsBody (s : Obs) (h : s ≠ []) :
    parseComps (splitComma (renderObsBody s)) = some s := by
  induction s with
  | nil => exact absurd rfl h
  | cons x xs ih =>
    cases xs with
    | nil =>
      rw [show renderObsBody [x] = renderInt x from rfl,
        splitComma_no_comma _ (fun c hc => intChars_no_comma c (renderInt_mem x c hc)),
        parseComps, parseInt_renderInt]
      rfl
    | cons y ys =>
      rw [show renderObsBody (x :: y :: ys)
            = renderInt x ++ ',' :: (' ' :: renderObsBody (y :: ys)) from rfl,
        splitComma_append _ _ (fun c hc => intChars_no_comma c (renderInt_mem x c hc)),
        parseComps, parseInt_renderInt, parseComps_splitComma_space,
        ih (List.cons_ne_nil y ys)]

theorem intChars_not_colon : ∀ c ∈ intChars, (c == ':') = false := by decide

theorem intChars_not_paren : ∀ c ∈ intChars, isParenChar c = false := by decide

theorem renderObsBody_head (x : ℤ) (xs : Obs) :
    ∃ c0 rest, renderObsBody (x :: xs) = c0 :: rest ∧ c0 ∈ intChars := by
  obtain ⟨c, r, hcr⟩ := List.exists_cons_of_ne_nil (renderInt_ne_nil x)
  have hcm : c ∈ intChars := by
    refine renderInt_mem x c ?_
    rw [hcr]
    exact List.mem_cons_self c r
  cases xs with
  | nil =>
    refine ⟨c, r, ?_, hcm⟩
    rw [show renderObsBody [x] = renderInt x from rfl, hcr]
  | cons y ys =>
    refine ⟨c, r ++ ',' :: ' ' :: renderObsBody (y :: ys), ?_, hcm⟩
    rw [show renderObsBody (x :: y :: ys)
          = renderInt x ++ ',' :: ' ' :: renderObsBody (y :: ys) from rfl, hcr]
    rfl

theorem renderObsBody_last (s : Obs) (h : s ≠ []) :
    ∃ cn, (renderObsBody s).getLast? = some cn ∧ cn ∈ intChars := by
  induction s with
  | nil => exact absurd rfl h
  | cons x xs ih =>
    cases xs with
    | nil =>
      have hne := renderInt_ne_nil x
      refine ⟨(renderInt x).getLast hne, ?_, renderInt_mem x _ (List.getLast_mem hne)⟩
      rw [show renderObsBody [x] = renderInt x from rfl]
      exact List.getLast?_eq_getLast_of_ne_nil hne
    | cons y ys =>
      obtain ⟨cn, hcn, hmem⟩ := ih (List.cons_ne_nil y ys)
      obtain ⟨c0, rest, hcr, _⟩ := renderObsBody_head y ys
      refine ⟨cn, ?_, hmem⟩
      rw [show renderObsBody (x :: y :: ys)
            = renderInt x ++ ',' :: ' ' :: renderObsBody (y :: ys) from rfl,
        List.getLast?_append_of_ne_nil _ (List.cons_ne_nil _ _), hcr,
        List.getLast?_cons_cons, List.getLast?_cons_cons, ← hcr, hcn]

theorem renderObs_two (x y : ℤ) (ys : Obs) :
    renderObs (x :: y :: ys) = '(' :: (renderObsBody (x :: y :: ys) ++ [')']) := rfl

theorem parseQKey_renderQKey (s : Obs) (a : ℤ) (h2 : 2 ≤ s.length) :
    parseQKey (renderQKey s a) = some (s, a) := by
  obtain ⟨x, y, ys, rfl⟩ : ∃ x y ys, s = x :: y :: ys := by
    cases s with
    | nil => simp at h2
    | cons x xs =>
      cases xs with
      | nil => simp at h2
      | cons y ys => exact ⟨x, y, ys, rfl⟩
  obtain ⟨c0, rest, hcr, hc0⟩ := renderObsBody_head x (y :: ys)
  obtain ⟨cn, hcn, hcnm⟩ := renderObsBody_last (x :: y :: ys) (List.cons_ne_nil _ _)
  unfold parseQKey renderQKey
  rw [renderObs_two, List.cons_append, List.append_assoc, List.cons_append,
    List.nil_append]
  rw [show ('(' :: (renderObsBody (x :: y :: ys) ++ ')'
        :: ':' :: renderInt a) : List Char)
      = ('(' :: (renderObsBody (x :: y :: ys) ++ [')'])) ++ ':' :: renderInt a by
    simp]
  rw [rsplitColon_append _ _
    (fun c hc => intChars_not_colon c (renderInt_mem a c hc))]
  dsimp only
  rw [parseInt_renderInt]
  dsimp only
  rw [stripParens_wrap (renderObsBody (x :: y :: ys)) c0 cn rest hcr
    (intChars_not_paren c0 hc0) hcn (intChars_not_paren cn hcnm),
    parseComps_renderObsBody _ (List.cons_ne_nil _ _)]

/-! ## Table-level serialization -/

/-- A well-formed Q-table: distinct keys (a Python dict invariant) whose
observations have the spec's tuple shape (at least two components; the
encoder emits 7, legacy saves 4). -/
def tableOk (t : QTable) : Prop :=
  (t.map Prod.fst).Nodup ∧ ∀ kv ∈ t, 2 ≤ kv.1.1.length

theorem foldl_dictSet_fresh {κ α : Type} [DecidableEq κ] :
    ∀ (t acc : List (κ × α)), (t.map Prod.fst).Nodup →
      (∀ k ∈ t.map Prod.fst, k ∉ acc.map Prod.fst) →
      t.foldl (fun d kv => dictSet d kv.1 kv.2) acc = acc ++ t := by
  intro t
  induction t with
  | nil =>
    intro acc _ _
    simp
  | cons kv rest ih =>
    intro acc hnd hfresh
    have hnd' : (rest.map Prod.fst).Nodup := (List.nodup_cons.mp hnd).2
    have hhd : kv.1 ∉ rest.map Prod.fst := (List.nodup_cons.mp hnd).1
    rw [List.foldl_cons,
      dictSet_fresh acc kv.1 kv.2 (hfresh kv.1 (List.mem_cons_self _ _)),
      ih (acc ++ [kv]) hnd' ?_, List.append_assoc, List.singleton_append]
    intro k hk
    rw [List.map_append, List.mem_append]
    rintro (hka | hkk)
    · exact hfresh k (List.mem_cons_of_mem _ hk) hka
    · rcases List.mem_singleton.mp (by simpa using hkk) with rfl
      exact hhd hk

theorem strKey_inj (k1 k2 : QKey) (h1 : 2 ≤ k1.1.length) (h2 : 2 ≤ k2.1.length)
    (he : strKey k1 = strKey k2) : k1 = k2 := by
  have hd : renderQKey k1.1 k1.2 = renderQKey k2.1 k2.2 := congrArg String.data he
  have hp := parseQKey_renderQKey k1.1 k1.2 h1
  rw [hd, parseQKey_renderQKey k2.1 k2.2 h2] at hp
  have := Option.some.inj hp
  calc k1 = (k1.1, k1.2) := rfl
    _ = (k2.1, k2.2) := this.symm
    _ = k2 := rfl

theorem serializeTable_eq (t : QTable) (hok : tableOk t) :
    serializeTable t = t.map (fun kv => (strKey kv.1, kv.2)) := by
  unfold serializeTable
  rw [show (t.foldl (fun d kv => dictSet d (strKey kv.1) kv.2) [])
      = ((t.map (fun kv => (strKey kv.1, kv.2))).foldl
          (fun d kv => dictSet d kv.1 kv.2) []) by rw [List.foldl_map]]
  refine foldl_dictSet_fresh _ [] ?_ (by simp)
  rw [List.map_map, show (Prod.fst ∘ fun kv : QKey × ℚ => (strKey kv.1, kv.2))
      = (strKey ∘ Prod.fst) from rfl, ← List.map_map]
  refine List.Nodup.map_on ?_ hok.1
  intro a ha b hb hab
  obtain ⟨kva, hkva, rfl⟩ := List.mem_map.mp ha
  obtain ⟨kvb, hkvb, rfl⟩ := List.mem_map.mp hb
  exact strKey_inj _ _ (hok.2 kva hkva) (hok.2 kvb hkvb) hab

theorem loadTable_parsed : ∀ (t acc : QTable), (∀ kv ∈ t, 2 ≤ kv.1.1.length) →
    loadTable acc (t.map (fun kv => (strKey kv.1, kv.2)))
      = Except.ok (t.foldl (fun d kv => dictSet d kv.1 kv.2) acc) := by
  intro t
  induction t with
  | nil =>
    intro acc _
    rfl
  | cons kv rest ih =>
    intro acc h
    rw [List.map_cons, loadTable,
      show (strKey kv.1).data = renderQKey kv.1.1 kv.1.2 from rfl,
      parseQKey_renderQKey _ _ (h kv (List.mem_cons_self _ _))]
    dsimp only
    rw [List.foldl_cons]
    exact ih (dictSet acc kv.1 kv.2) (fun x hx => h x (List.mem_cons_of_mem _ hx))

theorem loadTable_serializeTable (t : QTable) (hok : tableOk t) :
    loadTable [] (serializeTable t) = Except.ok t := by
  rw [serializeTable_eq t hok, loadTable_parsed t [] hok.2,
    foldl_dictSet_fresh t [] hok.1 (by simp), List.nil_append]

theorem loadContexts_std (b : QLearningAgent) (tc tb tm : QTable)
    (h1 : b.combat_q = []) (h2 : b.base_q = []) (h3 : b.minigame_q = [])
    (hc : tableOk tc) (hb : tableOk tb) (hm : tableOk tm) :
    loadContexts b [("combat", serializeTable tc), ("base", serializeTable tb),
        ("minigame", serializeTable tm)]
      = Except.ok { b with combat_q := tc, base_q := tb, minigame_q := tm } := by
  rw [loadContexts, show getQTable b "combat" = [] by rw [getQTable_combat]; exact h1,
    loadTable_serializeTable tc hc]
  dsimp only
  rw [show setQTable b "combat" tc = { b with combat_q := tc } by simp [setQTable]]
  rw [loadContexts, show getQTable { b with combat_q := tc } "base" = [] by
      simp [getQTable]; exact h2,
    loadTable_serializeTable tb hb]
  dsimp only
  rw [show setQTable { b with combat_q := tc } "base" tb
      = { b with combat_q := tc, base_q := tb } by simp [setQTable]]
  rw [loadContexts, show getQTable { b with combat_q := tc, base_q := tb }
        "minigame" = [] by simp [getQTable]; exact h3,
    loadTable_serializeTable tm hm]
  dsimp only
  rw [show setQTable { b with combat_q := tc, base_q := tb } "minigame" tm
      = { b with combat_q := tc, base_q := tb, minigame_q := tm } by simp [setQTable]]
  rw [loadContexts]

/-- C3: serializing all Q-tables with `get_q_table_dict` and loading
them back with `load_q_table_dict` reproduces the exact
(context, state, action) → value mappings and the exact telemetry
(counters and lessons), for any well-formed multi-context table; the
rendered key/parse grammar agreement is `parseQKey_renderQKey`, used
through `loadTable_serializeTable`. -/
theorem q_table_round_trip (ag ag0 : QLearningAgent)
    (hc : tableOk ag.combat_q) (hb : tableOk ag.base_q) (hm : tableOk ag.minigame_q) :
    load_q_table_dict ag0 (get_q_table_dict ag)
      = Except.ok { ag0 with
          combat_q := ag.combat_q, base_q := ag.base_q,
          minigame_q := ag.minigame_q,
          total_battles := ag.total_battles, battles_won := ag.battles_won,
          floors_cleared := ag.floors_cleared, highest_floor := ag.highest_floor,
          total_learning_updates := ag.total_learning_updates,
          lessons_learned := ag.lessons_learned,
          player_taught_actions := ag.player_taught_actions } := by
  unfold load_q_table_dict get_q_table_dict
  dsimp only
  exact loadContexts_std _ ag.combat_q ag.base_q ag.minigame_q rfl rfl rfl hc hb hm

/-- The witness round-trips a concrete two-context table together with
concrete telemetry. -/
theorem q_table_round_trip_witness :
    load_q_table_dict initAgent (get_q_table_dict
        { initAgent with combat_q := [(([0, 1, 2, 3, 4, 5, 6], 2), 5)],
                         base_q := [(([7, 8], 0), 3)],
                         total_battles := 9,
                         lessons_learned := ["Mastered: ATTACK at High HP"] })
      = Except.ok { initAgent with
          combat_q := [(([0, 1, 2, 3, 4, 5, 6], 2), 5)],
          base_q := [(([7, 8], 0), 3)],
          total_battles := 9,
          lessons_learned := ["Mastered: ATTACK at High HP"] } :=
  q_table_round_trip
    { initAgent with combat_q := [(([0, 1, 2, 3, 4, 5, 6], 2), 5)],
                     base_q := [(([7, 8], 0), 3)],
                     total_battles := 9,
                     lessons_learned := ["Mastered: ATTACK at High HP"] }
    initAgent ⟨by decide, by decide⟩ ⟨by decide, by decide⟩ ⟨by decide, by decide⟩

/-! ## C4: malformed keys leave a partially populated table -/

theorem getQTable_reset (ag : QLearningAgent) :
    getQTable { ag with combat_q := [], base_q := [], minigame_q := [] } "combat"
      = [] := by
  rw [getQTable_combat]

theorem setQTable_combat (ag : QLearningAgent) (t : QTable) :
    setQTable ag "combat" t = { ag with combat_q := t } := by
  simp [setQTable]

/-- A serialized save whose combat table has one well-formed entry
followed by a key with no colon. -/
def badSaveData : SaveData :=
  { contexts := [("combat", [("(0, 0, 0, 0, 0, 0, 0):1", 5), ("badkey", 1)])],
    stats := none }

/-- C4 failing input: loading `badSaveData` raises (the `Except.error`),
but the error state carries the combat table already populated with the
entry that preceded the malformed key — the load is not atomic. -/
theorem load_partial_population :
    load_q_table_dict initAgent badSaveData
        = Except.error { initAgent with
            combat_q := [(([0, 0, 0, 0, 0, 0, 0], 1), 5)] }
    ∧ ([(([0, 0, 0, 0, 0, 0, 0], 1), (5 : ℚ))] : QTable) ≠ [] := by
  constructor
  · rfl
  · decide

/-! ## C5: arity mismatches load as-is -/

/-- A serialized save whose combat key has 4 components while the
current encoder emits 7. -/
def legacySaveData : SaveData :=
  { contexts := [("combat", [("(0, 1, 2, 3):5", 7)])], stats := none }

/-- C5 counterexample: a 4-component key loads successfully into the
agent exactly as written — the table is not discarded (the agent does
not start fresh) although the configured encoder's observation arity
is 7. -/
theorem load_arity_mismatch_counterexample :
    load_q_table_dict initAgent legacySaveData
        = Except.ok { initAgent with
            combat_q := [(([0, 1, 2, 3], 5), 7)],
            base_q := [], minigame_q := [] }
    ∧ (encode_state 0 ⟨100, 100, 50, 0, 0⟩ [] none).length = 7
    ∧ ([0, 1, 2, 3] : Obs).length ≠ (encode_state 0 ⟨100, 100, 50, 0, 0⟩ [] none).length
    ∧ ([(([0, 1, 2, 3], 5), (7 : ℚ))] : QTable) ≠ [] := by
  have hlen : (encode_state 0 ⟨100, 100, 50, 0, 0⟩ [] none).length = 7 := rfl
  refine ⟨?_, hlen, by rw [hlen]; decide, by decide⟩
  rfl

/-- C5 amended: `load_q_table_dict` performs no arity check at all — a
parsable key of any observation arity is loaded as-is (the stored state
is exactly the serialized tuple, neither zero-padded, truncated, nor
discarded). -/
theorem load_arity_as_is (ag : QLearningAgent) (s : Obs) (a : ℤ) (v : ℚ)
    (h2 : 2 ≤ s.length) :
    load_q_table_dict ag
        { contexts := [("combat", [(strKey (s, a), v)])], stats := none }
      = Except.ok { ag with
          combat_q := [((s, a), v)],
          base_q := [], minigame_q := [] } := by
  unfold load_q_table_dict
  dsimp only
  rw [loadContexts, getQTable_reset, loadTable,
    show (strKey (s, a)).data = renderQKey s a from rfl,
    parseQKey_renderQKey s a h2]
  dsimp only
  rw [loadTable]
  dsimp only
  rw [setQTable_combat, loadContexts]
  rfl

/-- The witness loads the 4-component key through the amended statement. -/
theorem load_arity_as_is_witness :
    load_q_table_dict initAgent
        { contexts := [("combat", [(strKey ([0, 1, 2, 3], 5), 7)])], stats := none }
      = Except.ok { initAgent with
          combat_q := [((([0, 1, 2, 3] : Obs), 5), 7)],
          base_q := [], minigame_q := [] } :=
  load_arity_as_is initAgent [0, 1, 2, 3] 5 7 (by decide)

end TowerClimber
